import Mathlib

/-!
Shallow embedding of the QueueCTL job queue (queuectl/database.py,
queuectl/worker.py, queuectl/cli.py).

Timestamps are modelled as integers (seconds since the epoch, UTC); every
Store operation receives the current instant `now` explicitly, mirroring the
`datetime.now(timezone.utc)` call at the top of each Python function.  The
jobs table is a list of rows in insertion (rowid) order; the config table is
an association list of string key/value pairs.  `attempts` is a `Nat`
(initialised to 0 and only ever incremented or reset by the code), all other
integer columns are `Int`.
-/

namespace QueueCTL

/-- The `state` column: pending | scheduled | processing | failed | completed | dead. -/
inductive JobState where
  | pending
  | scheduled
  | processing
  | failed
  | completed
  | dead
deriving DecidableEq, Repr

/-- One row of the `jobs` table (schema in `init_db`). `timeout` is always
populated by `create_job` (None becomes 300), so it is a plain `Int`. -/
structure Job where
  id : String
  command : String
  state : JobState
  attempts : Nat
  max_retries : Int
  priority : Int
  timeout : Int
  run_at : Option Int
  created_at : Int
  updated_at : Int
  started_at : Option Int
  completed_at : Option Int
deriving DecidableEq, Repr

/-- The database: the `jobs` table (rows in rowid order) and the `config`
key/value table. -/
structure DB where
  jobs : List Job
  config : List (String × String)
deriving DecidableEq, Repr

/-- Digits-only accumulator for `parseInt`. -/
def parseDigits : List Char → Option Nat
  | [] => none
  | cs => cs.foldl
      (fun acc c => match acc with
        | none => none
        | some n => if c.isDigit then some (n * 10 + (c.toNat - 48)) else none)
      (some 0)

/-- Strip leading and trailing whitespace from a character list. -/
def trimChars (cs : List Char) : List Char :=
  ((cs.dropWhile Char.isWhitespace).reverse.dropWhile Char.isWhitespace).reverse

/-- Model of Python `int(str)`: optional surrounding whitespace, optional
sign, decimal digits; anything else raises `ValueError` (here: `none`). -/
def parseInt (s : String) : Option Int :=
  match trimChars s.toList with
  | '-' :: rest => (parseDigits rest).map (fun n => -(n : Int))
  | '+' :: rest => (parseDigits rest).map (fun n => (n : Int))
  | l => (parseDigits l).map (fun n => (n : Int))

/-- `get_config(key, default)`: first row with the key, else the default. -/
def get_config (cfg : List (String × String)) (key default : String) : String :=
  match cfg.find? (fun p => p.1 = key) with
  | some p => p.2
  | none => default

/-- `set_config(key, value)`: INSERT OR REPLACE into config. -/
def set_config (key value : String) (db : DB) : DB :=
  { db with config := (db.config.filter (fun p => p.1 ≠ key)) ++ [(key, value)] }

/-- Result of `datetime.fromisoformat(run_at_str)`: the wall-clock value as
written (seconds) plus the explicit UTC offset (seconds) when the string
carried one; `offset = none` models a naive datetime. -/
structure ParsedDT where
  naive : Int
  offset : Option Int
deriving DecidableEq, Repr

/-- The instant denoted by a parsed datetime after the `create_job` logic:
a naive value is stamped with the system local timezone
(`datetime.now().astimezone().tzinfo`), then converted to UTC
(`astimezone(timezone.utc)`). An aware value keeps its own offset. -/
def toUtc (localTZ : Int) (p : ParsedDT) : Int :=
  p.naive - (match p.offset with | some o => o | none => localTZ)

/-- Outcome of `create_job`. The Python function prints an error and inserts
nothing on an unparsable `run_at` (`ValueError`), on an unparsable
`max_retries` config value (generic `except Exception`), and on a duplicate
id (`IntegrityError`). -/
inductive CreateResult where
  | ok (db : DB)
  | invalidRunAt
  | badConfig
  | duplicateId
deriving DecidableEq, Repr

/-- `create_job(job_id, command, max_retries_override, run_at_str, priority,
timeout)`.  `run_at_parse` is the outcome of `datetime.fromisoformat` on the
caller's `run_at_str`: `none` = no `run_at` given, `some none` = the string
failed to parse, `some (some p)` = parsed value `p`. -/
def create_job (now localTZ : Int) (job_id command : String)
    (max_retries_override : Option Int) (run_at_parse : Option (Option ParsedDT))
    (priority : Int) (timeout : Option Int) (db : DB) : CreateResult :=
  let mr? : Option Int :=
    match max_retries_override with
    | some m => some m
    | none => parseInt (get_config db.config "max_retries" "3")
  match mr? with
  | none => .badConfig
  | some max_retries =>
    let tmo := timeout.getD 300
    let stRun? : Option (JobState × Option Int) :=
      match run_at_parse with
      | none => some (.pending, none)
      | some none => none
      | some (some p) =>
        let utc := toUtc localTZ p
        if utc > now then some (.scheduled, some utc) else some (.pending, none)
    match stRun? with
    | none => .invalidRunAt
    | some (job_state, run_at_dt) =>
      if db.jobs.any (fun r => r.id = job_id) then .duplicateId
      else .ok { db with jobs := db.jobs ++
        [{ id := job_id, command := command, state := job_state, attempts := 0,
           max_retries := max_retries, priority := priority, timeout := tmo,
           run_at := run_at_dt, created_at := now, updated_at := now,
           started_at := none, completed_at := none }] }

/-- The WHERE clause of `fetch_and_lock_job`: `state = 'pending' OR
(state IN ('failed','scheduled') AND run_at <= now)`.  A NULL `run_at`
makes the comparison NULL, hence not selected. -/
def eligible (now : Int) (j : Job) : Bool :=
  j.state = .pending ||
    ((j.state = .failed || j.state = .scheduled) &&
      (match j.run_at with | some t => t ≤ now | none => false))

/-- `ORDER BY priority DESC, created_at ASC`: `b` sorts strictly before `a`. -/
def betterRow (a b : Job) : Bool :=
  b.priority > a.priority || (b.priority = a.priority && b.created_at < a.created_at)

/-- `LIMIT 1` over the ordered rows: fold keeping the best row seen so far;
on a complete tie the earlier row (lower rowid) wins, matching SQLite's
scan order. -/
def pickJob (acc : Option Job) : List Job → Option Job
  | [] => acc
  | j :: rest =>
    match acc with
    | none => pickJob (some j) rest
    | some b => pickJob (some (if betterRow b j then j else b)) rest

/-- `fetch_and_lock_job()`: select the best eligible row; if found, set its
state to `processing` and `updated_at := now`, returning the pre-update
snapshot (`dict(job)` is taken before the UPDATE). -/
def fetch_and_lock_job (now : Int) (db : DB) : Option Job × DB :=
  match pickJob none (db.jobs.filter (eligible now)) with
  | none => (none, db)
  | some j =>
    (some j,
      { db with jobs := db.jobs.map (fun r =>
          if r.id = j.id then { r with state := .processing, updated_at := now } else r) })

/-- The backoff base used by `finalize_job`: `get_config('backoff_base','2')`
parsed as an int, with 2 substituted on `ValueError`. -/
def backoff_base_of (cfg : List (String × String)) : Int :=
  (parseInt (get_config cfg "backoff_base" "2")).getD 2

/-- `finalize_job(job_id, success)`.  Success: unconditional UPDATE to
`completed`.  Failure: read `attempts, max_retries` of the row (no state
check), increment, move to `dead` when `new_attempts >= max_retries`
(run_at untouched), else to `failed` with
`run_at := now + backoff_base ** new_attempts`, where `backoff_base` is
`get_config('backoff_base', '2')` parsed as int, 2 on `ValueError`. -/
def finalize_job (now : Int) (job_id : String) (success : Bool) (db : DB) : DB :=
  if success then
    { db with jobs := db.jobs.map (fun r =>
        if r.id = job_id then
          { r with state := .completed, updated_at := now, completed_at := some now }
        else r) }
  else
    match db.jobs.find? (fun r => r.id = job_id) with
    | none => db
    | some j =>
      let new_attempts := j.attempts + 1
      if (new_attempts : Int) ≥ j.max_retries then
        { db with jobs := db.jobs.map (fun r =>
            if r.id = job_id then
              { r with state := .dead, attempts := new_attempts, updated_at := now }
            else r) }
      else
        let backoff_base := backoff_base_of db.config
        let delay_seconds := backoff_base ^ new_attempts
        { db with jobs := db.jobs.map (fun r =>
            if r.id = job_id then
              { r with state := .failed, attempts := new_attempts, updated_at := now,
                       run_at := some (now + delay_seconds) }
            else r) }

/-- `release_job(job_id)`: `UPDATE jobs SET state='pending', updated_at=now
WHERE id=? AND state='processing'`.  Note: `run_at` is NOT touched. -/
def release_job (now : Int) (job_id : String) (db : DB) : DB :=
  { db with jobs := db.jobs.map (fun r =>
      if r.id = job_id && r.state = .processing then
        { r with state := .pending, updated_at := now }
      else r) }

/-- `requeue_job(job_id)`: `state='pending', attempts=0, run_at=NULL,
updated_at=now WHERE id=? AND state IN ('dead','failed')`. -/
def requeue_job (now : Int) (job_id : String) (db : DB) : DB :=
  { db with jobs := db.jobs.map (fun r =>
      if r.id = job_id && (r.state = .dead || r.state = .failed) then
        { r with state := .pending, attempts := 0, updated_at := now, run_at := none }
      else r) }

/-- `retry_dlq_job(job_id)`: same resets but only from `dead`. -/
def retry_dlq_job (now : Int) (job_id : String) (db : DB) : DB :=
  { db with jobs := db.jobs.map (fun r =>
      if r.id = job_id && r.state = .dead then
        { r with state := .pending, attempts := 0, updated_at := now, run_at := none }
      else r) }

/-- `mark_job_started(job_id)`: `SET started_at = now WHERE id = ?`. -/
def mark_job_started (now : Int) (job_id : String) (db : DB) : DB :=
  { db with jobs := db.jobs.map (fun r =>
      if r.id = job_id then { r with started_at := some now } else r) }

/-- `delete_job(job_id)`: `DELETE FROM jobs WHERE id = ?`. -/
def delete_job (job_id : String) (db : DB) : DB :=
  { db with jobs := db.jobs.filter (fun r => r.id ≠ job_id) }

/-- `init_db()` on a fresh file: empty jobs table, default config rows. -/
def init_db : DB :=
  { jobs := [], config := [("max_retries", "3"), ("backoff_base", "2")] }

/-- One Store operation, as invoked by the CLI and the workers. -/
inductive Step : DB → DB → Prop
  | create (now localTZ : Int) (job_id command : String) (mro : Option Int)
      (rap : Option (Option ParsedDT)) (priority : Int) (timeout : Option Int)
      (db db' : DB)
      (h : create_job now localTZ job_id command mro rap priority timeout db = .ok db') :
      Step db db'
  | lease (now : Int) (db : DB) : Step db (fetch_and_lock_job now db).2
  | finalize (now : Int) (job_id : String) (success : Bool) (db : DB) :
      Step db (finalize_job now job_id success db)
  | release (now : Int) (job_id : String) (db : DB) : Step db (release_job now job_id db)
  | requeue (now : Int) (job_id : String) (db : DB) : Step db (requeue_job now job_id db)
  | retryDlq (now : Int) (job_id : String) (db : DB) : Step db (retry_dlq_job now job_id db)
  | markStarted (now : Int) (job_id : String) (db : DB) :
      Step db (mark_job_started now job_id db)
  | delete (job_id : String) (db : DB) : Step db (delete_job job_id db)
  | setConfig (key value : String) (db : DB) : Step db (set_config key value db)

/-- Database states reachable from a freshly initialised database through the
Store operations. -/
def Reachable (db : DB) : Prop :=
  Relation.ReflTransGen Step init_db db

/-- What one tick of the worker's busy state does (worker.py,
`run_worker_loop`, STATE 1).  `pollResult` is `current_process.poll()`
(`none` = still running), `elapsed` is `time.time() - current_job_start_time`,
`jobTimeout` is `current_job.get('timeout', 300)`.  The timeout branch runs
only when `job_timeout` is truthy (non-zero) AND elapsed exceeds it; it
terminates, waits, kills, and overrides the return code with the synthetic
`-9`.  `finalize_job` is invoked with `success = (return_code == 0)` as soon
as a return code is available. -/
structure TickOutcome where
  terminatedAndKilled : Bool
  recordedCode : Option Int
  finalizedSuccess : Option Bool
deriving DecidableEq, Repr

/-- One busy-state iteration of `run_worker_loop`. -/
def busyTick (pollResult : Option Int) (elapsed jobTimeout : Int) : TickOutcome :=
  let timedOut := jobTimeout ≠ 0 && elapsed > jobTimeout
  let return_code : Option Int := if timedOut then some (-9) else pollResult
  match return_code with
  | some code =>
    { terminatedAndKilled := timedOut, recordedCode := some code,
      finalizedSuccess := some (code = 0) }
  | none =>
    { terminatedAndKilled := timedOut, recordedCode := none, finalizedSuccess := none }

/-- The Store effect of `worker start` (cli.py, lines 165-237) before any
worker process is spawned: the function only checks the PID file and installs
a SIGTERM handler; it performs no database operation at all (no orphan sweep
exists anywhere in the source), so the jobs table is untouched. -/
def worker_start_pre_spawn (db : DB) : DB := db

/-! Concrete states used to exercise the operations: a job `"a"` is enqueued
at t=0, leased at t=0, fails at t=1 (retry scheduled at t=3), and is leased
again at t=10 — at which point it sits in `processing` with a non-null
`run_at`. -/

/-- The row inserted by `create_job 0 _ "a" "exit 1" (some 3) none 0 none`. -/
def jobA0 : Job :=
  { id := "a", command := "exit 1", state := .pending, attempts := 0,
    max_retries := 3, priority := 0, timeout := 300, run_at := none,
    created_at := 0, updated_at := 0, started_at := none, completed_at := none }

/-- The database after enqueueing `"a"` at t=0. -/
def cDb1 : DB :=
  match create_job 0 0 "a" "exit 1" (some 3) none 0 none init_db with
  | .ok d => d
  | _ => init_db

/-- After leasing `"a"` at t=0: the row is `processing`. -/
def cDb2 : DB := (fetch_and_lock_job 0 cDb1).2

/-- After `"a"` fails at t=1: the row is `failed` with `run_at = some 3`. -/
def cDb3 : DB := finalize_job 1 "a" false cDb2

/-- After leasing `"a"` again at t=10: `processing` with `run_at = some 3`. -/
def cDb4 : DB := (fetch_and_lock_job 10 cDb3).2

/-- A database holding one scheduled job, created at t=0 for t=100. -/
def sDb : DB :=
  match create_job 0 0 "s" "echo hi" (some 3) (some (some ⟨100, some 0⟩)) 5 none init_db with
  | .ok d => d
  | _ => init_db

/-- The scheduled row of `sDb`. -/
def sJob : Job :=
  { id := "s", command := "echo hi", state := .scheduled, attempts := 0,
    max_retries := 3, priority := 5, timeout := 300, run_at := some 100,
    created_at := 0, updated_at := 0, started_at := none, completed_at := none }

/-- A job already in a terminal state, used to exercise `finalize_job`'s
indifference to the current state. -/
def doneJob : Job :=
  { id := "c", command := "true", state := .completed, attempts := 0,
    max_retries := 1, priority := 0, timeout := 300, run_at := none,
    created_at := 0, updated_at := 0, started_at := none, completed_at := some 0 }

/-- A single-row database holding `doneJob`. -/
def doneDb : DB := { jobs := [doneJob], config := [] }

/-- A dead job, used to exercise `requeue_job`. -/
def deadJob : Job :=
  { id := "d", command := "false", state := .dead, attempts := 3,
    max_retries := 3, priority := 0, timeout := 300, run_at := some 7,
    created_at := 0, updated_at := 2, started_at := none, completed_at := none }

/-- A single-row database holding `deadJob`. -/
def deadDb : DB := { jobs := [deadJob], config := [] }

/-- The part of the spec's run_at discipline that the code maintains: a row
in `scheduled` or `failed` always carries a non-null `run_at`. -/
def RunAtInv (j : Job) : Prop :=
  (j.state = JobState.scheduled ∨ j.state = JobState.failed) → j.run_at ≠ none

/-! Helper lemmas about the selection order and about id-keyed updates. -/

theorem betterRow_self (j : Job) : betterRow j j = false := by
  simp [betterRow]

theorem betterRow_eq_false_iff {a b : Job} :
    betterRow a b = false ↔
      b.priority ≤ a.priority ∧ (b.priority = a.priority → a.created_at ≤ b.created_at) := by
  simp only [betterRow, Bool.or_eq_false_iff, Bool.and_eq_false_iff,
    decide_eq_false_iff_not, not_lt]
  constructor
  · rintro ⟨h1, h2⟩
    refine ⟨h1, fun hp => ?_⟩
    rcases h2 with h2 | h2
    · exact absurd hp h2
    · exact h2
  · rintro ⟨h1, h2⟩
    refine ⟨h1, ?_⟩
    by_cases hp : b.priority = a.priority
    · exact Or.inr (h2 hp)
    · exact Or.inl hp

theorem betterRow_false_trans {x y z : Job}
    (h1 : betterRow x y = false) (h2 : betterRow y z = false) :
    betterRow x z = false := by
  rw [betterRow_eq_false_iff] at h1 h2 ⊢
  obtain ⟨a1, a2⟩ := h1
  obtain ⟨b1, b2⟩ := h2
  refine ⟨le_trans b1 a1, fun hz => ?_⟩
  have hy : y.priority = x.priority := le_antisymm (by omega) (by omega)
  have hzy : z.priority = y.priority := by omega
  exact le_trans (a2 hy) (b2 hzy)

theorem betterRow_false_of_false_of_true {x y z : Job}
    (h1 : betterRow x y = false) (h2 : betterRow z y = true) :
    betterRow x z = false := by
  rw [betterRow_eq_false_iff] at h1 ⊢
  simp only [betterRow, Bool.or_eq_true, Bool.and_eq_true, decide_eq_true_eq] at h2
  obtain ⟨a1, a2⟩ := h1
  constructor
  · rcases h2 with h2 | ⟨h2, _⟩ <;> omega
  · intro hzx
    rcases h2 with h2 | ⟨h2e, h2c⟩
    · omega
    · have := a2 (by omega)
      omega

theorem pickJob_eq_none {l : List Job} {acc : Option Job}
    (h : pickJob acc l = none) : acc = none ∧ l = [] := by
  induction l generalizing acc with
  | nil => exact ⟨h, rfl⟩
  | cons a rest ih =>
    cases acc with
    | none =>
      have := (ih h).1
      exact absurd this (by simp)
    | some b =>
      have := (ih h).1
      exact absurd this (by simp)

theorem pickJob_spec {l : List Job} {acc : Option Job} {j : Job}
    (h : pickJob acc l = some j) :
    (j ∈ l ∨ acc = some j) ∧ (∀ r ∈ l, betterRow j r = false) ∧
      (∀ b, acc = some b → betterRow j b = false) := by
  induction l generalizing acc with
  | nil =>
    refine ⟨Or.inr h, by simp, fun b hb => ?_⟩
    cases h with
    | refl =>
      cases hb with
      | refl => exact betterRow_self j
  | cons a rest ih =>
    cases acc with
    | none =>
      obtain ⟨hmem, hbest, hacc⟩ := ih h
      have ha : betterRow j a = false := hacc a rfl
      refine ⟨?_, ?_, by simp⟩
      · rcases hmem with hm | hm
        · exact Or.inl (List.mem_cons_of_mem _ hm)
        · have haj : a = j := by injection hm
          exact Or.inl (haj ▸ List.mem_cons_self _ _)
      · intro r hr
        rcases List.mem_cons.mp hr with hr | hr
        · exact hr ▸ ha
        · exact hbest r hr
    | some b =>
      obtain ⟨hmem, hbest, hacc⟩ := ih h
      have hc : betterRow j (if betterRow b a then a else b) = false := hacc _ rfl
      by_cases hba : betterRow b a = true
      · -- the new best is a; b was strictly worse
        rw [if_pos hba] at hmem hc
        refine ⟨?_, ?_, ?_⟩
        · rcases hmem with hm | hm
          · exact Or.inl (List.mem_cons_of_mem _ hm)
          · exact Or.inl (by simp [Option.some.injEq] at hm; exact hm ▸ List.mem_cons_self _ _)
        · intro r hr
          rcases List.mem_cons.mp hr with hr | hr
          · exact hr ▸ hc
          · exact hbest r hr
        · intro b' hb'
          cases hb' with
          | refl => exact betterRow_false_of_false_of_true hc hba
      · -- the old best b survives the comparison with a
        have hba' : betterRow b a = false := by
          cases hx : betterRow b a with
          | false => rfl
          | true => exact absurd hx hba
        rw [if_neg (by simp [hba'])] at hmem hc
        refine ⟨?_, ?_, ?_⟩
        · rcases hmem with hm | hm
          · exact Or.inl (List.mem_cons_of_mem _ hm)
          · exact Or.inr hm
        · intro r hr
          rcases List.mem_cons.mp hr with hr | hr
          · exact hr ▸ betterRow_false_trans hc hba'
          · exact hbest r hr
        · intro b' hb'
          cases hb' with
          | refl => exact hc

theorem find?_update (l : List Job) (job_id : String) (f : Job → Job)
    (hf : ∀ r, (f r).id = r.id) :
    (l.map (fun r => if r.id = job_id then f r else r)).find? (fun r => r.id = job_id) =
      (l.find? (fun r => r.id = job_id)).map f := by
  induction l with
  | nil => rfl
  | cons a rest ih =>
    by_cases ha : a.id = job_id
    · simp [List.find?_cons, ha, hf]
    · simp [List.find?_cons, ha, ih]

theorem mem_update_of_ne {l : List Job} {job_id : String} {f : Job → Job} {r : Job}
    (hr : r ∈ l) (hne : ¬(r.id = job_id)) :
    r ∈ l.map (fun x => if x.id = job_id then f x else x) := by
  have he : r = (fun x => if x.id = job_id then f x else x) r := by simp [hne]
  exact he ▸ List.mem_map_of_mem _ hr

theorem mem_update_of_match {l : List Job} {job_id : String} {f : Job → Job} {r : Job}
    (hr : r ∈ l) (hid : r.id = job_id) :
    f r ∈ l.map (fun x => if x.id = job_id then f x else x) := by
  have he : f r = (fun x => if x.id = job_id then f x else x) r := by simp [hid]
  exact he ▸ List.mem_map_of_mem _ hr

/-- C3. The claim says Supervisor startup moves every `processing` row back to
`pending` with `run_at := null` before spawning workers.  The code does not:
`worker start` performs no Store operation before spawning (no orphan sweep
exists anywhere in the source), so a database holding the reachable
`processing` row of `cDb2` is handed to the workers unchanged, still with a
job in `processing`. -/
theorem worker_start_no_orphan_recovery :
    worker_start_pre_spawn cDb2 = cDb2 ∧
      ((worker_start_pre_spawn cDb2).jobs.find? (fun r => r.id = "a")).map Job.state =
        some JobState.processing := by
  constructor
  · rfl
  · decide

/-- C4 (amended). `release_job(id)` on a `processing` row with the matching id
sets `state := pending` and `updated_at := now`, leaving `run_at`, `attempts`
and every other field unchanged; any row that is not a matching `processing`
row is left exactly as it was, and when no row matches the whole database is
unchanged. -/
theorem release_job_spec (now : Int) (job_id : String) (db : DB) :
    ((∀ r ∈ db.jobs, ¬(r.id = job_id ∧ r.state = JobState.processing)) →
        release_job now job_id db = db) ∧
    (∀ r ∈ db.jobs, r.id = job_id → r.state = JobState.processing →
        { r with state := JobState.pending, updated_at := now } ∈
          (release_job now job_id db).jobs) ∧
    (∀ r ∈ db.jobs, ¬(r.id = job_id ∧ r.state = JobState.processing) →
        r ∈ (release_job now job_id db).jobs) := by
  refine ⟨?_, ?_, ?_⟩
  · intro hnone
    have hmap : db.jobs.map (fun r =>
        if r.id = job_id && r.state = JobState.processing then
          { r with state := JobState.pending, updated_at := now }
        else r) = db.jobs := by
      have h1 : ∀ r ∈ db.jobs, (if r.id = job_id && r.state = JobState.processing then
          ({ r with state := JobState.pending, updated_at := now } : Job) else r) = id r := by
        intro r hr
        simp only [id]
        rw [if_neg]
        simp only [Bool.and_eq_true, decide_eq_true_eq]
        exact hnone r hr
      rw [List.map_congr_left h1, List.map_id]
    unfold release_job
    rw [hmap]
  · intro r hr hid hst
    refine List.mem_map.mpr ⟨r, hr, ?_⟩
    simp [hid, hst]
  · intro r hr hnot
    refine List.mem_map.mpr ⟨r, hr, ?_⟩
    cases hc : (r.id = job_id && r.state = JobState.processing) with
    | false => simp [hc]
    | true =>
      exfalso
      apply hnot
      simpa using hc

/-- C4 (counterexample). On the reachable state `cDb4` the job `"a"` is in
`processing` with `run_at = some 3`; `release_job` moves it to `pending` but
leaves `run_at = some 3`, not null as the claim states. -/
theorem release_job_keeps_run_at_cex :
    ((cDb4.jobs.find? (fun r => r.id = "a")).map (fun r => (r.state, r.run_at)) =
        some (JobState.processing, some 3)) ∧
    ((release_job 20 "a" cDb4).jobs.find? (fun r => r.id = "a")).map
        (fun r => (r.state, r.run_at)) = some (JobState.pending, some 3) ∧
    (some 3 : Option Int) ≠ none := by
  decide

/-- C4 (witness). `release_job` applied at a concrete `processing` row of the
reachable state `cDb4`. -/
theorem release_job_spec_witness :
    ({ id := "a", command := "exit 1", state := JobState.pending, attempts := 1,
       max_retries := 3, priority := 0, timeout := 300, run_at := some 3,
       created_at := 0, updated_at := 20, started_at := none,
       completed_at := none } : Job) ∈ (release_job 20 "a" cDb4).jobs := by
  have h := (release_job_spec 20 "a" cDb4).2.1
    { id := "a", command := "exit 1", state := JobState.processing, attempts := 1,
      max_retries := 3, priority := 0, timeout := 300, run_at := some 3,
      created_at := 0, updated_at := 10, started_at := none, completed_at := none }
    (by decide) (by decide) (by decide)
  exact h

/-- C9 (counterexample). A job stored with `timeout = 0` is never timed out:
with `elapsed = 1 > 0 = timeout` and the child exiting with code 0, the
worker neither terminates nor kills anything and finalizes the job as a
success, contradicting the claim that any job whose elapsed time exceeds its
timeout is finalized as a failure. -/
theorem busyTick_timeout_zero_cex :
    ((1 : Int) > 0) ∧
    busyTick (some 0) 1 0 =
      { terminatedAndKilled := false, recordedCode := some 0,
        finalizedSuccess := some true } := by
  decide

/-- C9 (amended). Whenever the stored timeout is non-zero (Python truthiness
guard) and the elapsed wall-clock time exceeds it, the worker terminates then
kills the child, records the synthetic exit code -9 (non-zero), and finalize
is invoked with success=false — regardless of what `poll()` returned. -/
theorem busyTick_timeout_finalizes_failure (pollResult : Option Int)
    (elapsed jobTimeout : Int) (h0 : jobTimeout ≠ 0) (h : elapsed > jobTimeout) :
    (busyTick pollResult elapsed jobTimeout).terminatedAndKilled = true ∧
    (busyTick pollResult elapsed jobTimeout).recordedCode = some (-9) ∧
    ((-9 : Int) ≠ 0) ∧
    (busyTick pollResult elapsed jobTimeout).finalizedSuccess = some false := by
  have hcond : (jobTimeout ≠ 0 && elapsed > jobTimeout) = true := by
    simp [h0, h]
  simp only [busyTick]
  rw [hcond]
  simp

/-- C9 (witness). A job with timeout 300 whose child is still running after
301 seconds is killed and finalized as a failure. -/
theorem busyTick_timeout_finalizes_failure_witness :
    ((300 : Int) ≠ 0) ∧ ((301 : Int) > 300) ∧
    (busyTick none 301 300).finalizedSuccess = some false :=
  ⟨by decide, by decide,
    (busyTick_timeout_finalizes_failure none 301 300 (by decide) (by decide)).2.2.2⟩

/-- C6. `finalize_job(id, success=true)` on an existing job sets its state to
`completed` and stamps `completed_at` and `updated_at` with now; every other
field — attempts, max_retries, priority, timeout, run_at, created_at,
started_at, command, id — is carried over unchanged (success does not
increment attempts), rows with other ids are untouched, and the config table
is untouched. -/
theorem finalize_job_success_spec (now : Int) (job_id : String) (db : DB) (j : Job)
    (hfind : db.jobs.find? (fun r => r.id = job_id) = some j) :
    (finalize_job now job_id true db).jobs.find? (fun r => r.id = job_id) =
      some { j with state := JobState.completed, updated_at := now,
                    completed_at := some now } ∧
    (∀ r ∈ db.jobs, ¬(r.id = job_id) → r ∈ (finalize_job now job_id true db).jobs) ∧
    (finalize_job now job_id true db).config = db.config := by
  have hdef : finalize_job now job_id true db =
      { db with jobs := db.jobs.map (fun r => if r.id = job_id then
          ({ r with
              state := JobState.completed, updated_at := now,
              completed_at := some now } : Job) else r) } := rfl
  refine ⟨?_, ?_, ?_⟩
  · rw [hdef]
    show (db.jobs.map _).find? _ = _
    rw [find?_update db.jobs job_id
      (fun r => { r with
                   state := JobState.completed, updated_at := now,
                   completed_at := some now })
      (fun r => rfl), hfind]
    rfl
  · intro r hr hne
    rw [hdef]
    exact mem_update_of_ne hr hne
  · rw [hdef]

/-- C6 (witness). Finalizing the pending job of `cDb1` as a success at t=5. -/
theorem finalize_job_success_spec_witness :
    (finalize_job 5 "a" true cDb1).jobs.find? (fun r => r.id = "a") =
      some { jobA0 with state := JobState.completed, updated_at := 5,
                        completed_at := some 5 } :=
  (finalize_job_success_spec 5 "a" cDb1 jobA0 (by decide)).1

/-- C2. `finalize_job(id, success=false)` on an existing job with stored
attempts `a` and `max_retries` `m`: attempts become `a+1` and `updated_at`
becomes now; if `a+1 ≥ m` the state becomes `dead` with `run_at` unchanged,
otherwise the state becomes `failed` with
`run_at = now + backoff_base ^ (a+1)`, where the backoff base is the
`backoff_base` config value parsed as an integer and 2 is substituted when it
does not parse. -/
theorem finalize_job_failure_spec (now : Int) (job_id : String) (db : DB) (j : Job)
    (hfind : db.jobs.find? (fun r => r.id = job_id) = some j) :
    ∃ j', (finalize_job now job_id false db).jobs.find? (fun r => r.id = job_id) = some j' ∧
      j'.attempts = j.attempts + 1 ∧
      j'.updated_at = now ∧
      (((j.attempts + 1 : Nat) : Int) ≥ j.max_retries →
        j'.state = JobState.dead ∧ j'.run_at = j.run_at) ∧
      (¬(((j.attempts + 1 : Nat) : Int) ≥ j.max_retries) →
        j'.state = JobState.failed ∧
        j'.run_at = some (now + backoff_base_of db.config ^ (j.attempts + 1))) ∧
      (parseInt (get_config db.config "backoff_base" "2") = none →
        backoff_base_of db.config = 2) := by
  by_cases hmax : ((j.attempts + 1 : Nat) : Int) ≥ j.max_retries
  · have hjobs : (finalize_job now job_id false db).jobs =
        db.jobs.map (fun r => if r.id = job_id then
          ({ r with
              state := JobState.dead, attempts := j.attempts + 1,
              updated_at := now } : Job) else r) := by
      simp only [finalize_job, Bool.false_eq_true, if_false, hfind]
      rw [if_pos hmax]
    refine ⟨{ j with
               state := JobState.dead, attempts := j.attempts + 1,
               updated_at := now }, ?_, rfl, rfl, fun _ => ⟨rfl, rfl⟩,
            fun hc => absurd hmax hc, fun hp => ?_⟩
    · rw [hjobs, find?_update db.jobs job_id
        (fun r => { r with
                     state := JobState.dead, attempts := j.attempts + 1,
                     updated_at := now })
        (fun r => rfl), hfind]
      rfl
    · simp [backoff_base_of, hp]
  · have hjobs : (finalize_job now job_id false db).jobs =
        db.jobs.map (fun r => if r.id = job_id then
          ({ r with
              state := JobState.failed, attempts := j.attempts + 1,
              updated_at := now,
              run_at := some (now + backoff_base_of db.config ^ (j.attempts + 1)) } : Job)
          else r) := by
      simp only [finalize_job, Bool.false_eq_true, if_false, hfind]
      rw [if_neg hmax]
    refine ⟨{ j with
               state := JobState.failed, attempts := j.attempts + 1,
               updated_at := now,
               run_at := some (now + backoff_base_of db.config ^ (j.attempts + 1)) },
            ?_, rfl, rfl, fun hc => absurd hc hmax, fun _ => ⟨rfl, rfl⟩, fun hp => ?_⟩
    · rw [hjobs, find?_update db.jobs job_id
        (fun r => { r with
                     state := JobState.failed, attempts := j.attempts + 1,
                     updated_at := now,
                     run_at := some (now + backoff_base_of db.config ^ (j.attempts + 1)) })
        (fun r => rfl), hfind]
      rfl
    · simp [backoff_base_of, hp]

/-- C2 (witness). The leased job of `cDb2` (attempts 0, max_retries 3) fails
at t=1: it becomes `failed` with attempts 1 and `run_at = some (1 + 2^1)`. -/
theorem finalize_job_failure_spec_witness :
    ((finalize_job 1 "a" false cDb2).jobs.find? (fun r => r.id = "a")).map
      (fun r => (r.state, r.attempts, r.run_at)) =
        some (JobState.failed, 1, some 3) := by
  obtain ⟨j', hf, ha, hu, _hdead, hfail, _hp⟩ :=
    finalize_job_failure_spec 1 "a" cDb2 { jobA0 with state := JobState.processing }
      (by decide)
  obtain ⟨hs, hrun⟩ := hfail (by decide)
  rw [hf]
  simp only [Option.map_some']
  rw [hs, ha, hrun]
  decide

/-- C10. Neither branch of `finalize_job` checks the current state: for any
existing job, whatever its state, `success=true` unconditionally produces
`completed` with `completed_at = now`, and `success=false` unconditionally
increments attempts and produces `dead` or `failed` according to
`attempts+1 ≥ max_retries`. -/
theorem finalize_job_ignores_state (now : Int) (job_id : String) (db : DB) (j : Job)
    (hfind : db.jobs.find? (fun r => r.id = job_id) = some j) :
    ((finalize_job now job_id true db).jobs.find? (fun r => r.id = job_id)).map
        (fun r => (r.state, r.completed_at)) = some (JobState.completed, some now) ∧
    ((finalize_job now job_id false db).jobs.find? (fun r => r.id = job_id)).map
        (fun r => (r.state, r.attempts)) =
      some ((if ((j.attempts + 1 : Nat) : Int) ≥ j.max_retries then JobState.dead
             else JobState.failed), j.attempts + 1) := by
  constructor
  · rw [(finalize_job_success_spec now job_id db j hfind).1]
    rfl
  · obtain ⟨j', hf, ha, _hu, hdead, hfail, _hp⟩ :=
      finalize_job_failure_spec now job_id db j hfind
    rw [hf]
    by_cases hmax : ((j.attempts + 1 : Nat) : Int) ≥ j.max_retries
    · rw [if_pos hmax]
      simp [(hdead hmax).1, ha]
    · rw [if_neg hmax]
      simp [(hfail hmax).1, ha]

/-- C10 (witness). `finalize_job(success=false)` on a job already in state
`completed` (max_retries 1) still increments attempts and moves it to
`dead`. -/
theorem finalize_job_ignores_state_witness :
    ((finalize_job 9 "c" false doneDb).jobs.find? (fun r => r.id = "c")).map
        (fun r => (r.state, r.attempts)) = some (JobState.dead, 1) := by
  have h := (finalize_job_ignores_state 9 "c" doneDb doneJob (by decide)).2
  rw [h]
  decide

/-- C7. `create_job` with a `run_at` string: a string that fails to parse
yields an error and no row is inserted; a parsed value with no offset is
stamped with the system local timezone and converted to UTC, one with an
offset keeps it (`toUtc`); if the UTC instant is strictly later than now the
job is inserted in state `scheduled` with that instant as `run_at`,
otherwise in state `pending` with `run_at` null. -/
theorem create_job_run_at_spec (now localTZ : Int) (job_id command : String)
    (m priority : Int) (timeout : Option Int) (db : DB)
    (hfresh : db.jobs.any (fun r => r.id = job_id) = false) :
    (create_job now localTZ job_id command (some m) (some none) priority timeout db =
      CreateResult.invalidRunAt) ∧
    (∀ n : Int, toUtc localTZ ⟨n, none⟩ = n - localTZ) ∧
    (∀ n off : Int, toUtc localTZ ⟨n, some off⟩ = n - off) ∧
    (∀ p : ParsedDT, toUtc localTZ p > now →
      create_job now localTZ job_id command (some m) (some (some p)) priority timeout db =
        CreateResult.ok { db with jobs := db.jobs ++
          [{ id := job_id, command := command, state := JobState.scheduled, attempts := 0,
             max_retries := m, priority := priority, timeout := timeout.getD 300,
             run_at := some (toUtc localTZ p), created_at := now, updated_at := now,
             started_at := none, completed_at := none }] }) ∧
    (∀ p : ParsedDT, ¬(toUtc localTZ p > now) →
      create_job now localTZ job_id command (some m) (some (some p)) priority timeout db =
        CreateResult.ok { db with jobs := db.jobs ++
          [{ id := job_id, command := command, state := JobState.pending, attempts := 0,
             max_retries := m, priority := priority, timeout := timeout.getD 300,
             run_at := none, created_at := now, updated_at := now,
             started_at := none, completed_at := none }] }) := by
  refine ⟨rfl, fun n => rfl, fun n off => rfl, ?_, ?_⟩
  · intro p hp
    simp only [create_job]
    rw [if_pos hp, hfresh]
    rfl
  · intro p hp
    simp only [create_job]
    rw [if_neg hp, hfresh]
    rfl

/-- C7 (witness). A `run_at` string that fails to parse makes `create_job`
report an error and insert nothing. -/
theorem create_job_run_at_spec_witness :
    create_job 0 0 "w" "echo" (some 3) (some none) 0 none init_db =
      CreateResult.invalidRunAt :=
  (create_job_run_at_spec 0 0 "w" "echo" 3 0 none init_db (by decide)).1

/-- C8. `requeue_job` is idempotent against itself: a second call changes
nothing, and the first call leaves every matching `failed` or `dead` row in
`pending` with attempts 0 and `run_at` null. -/
theorem requeue_job_idempotent (now1 now2 : Int) (job_id : String) (db : DB) :
    requeue_job now2 job_id (requeue_job now1 job_id db) = requeue_job now1 job_id db ∧
    (∀ r ∈ db.jobs, r.id = job_id →
      (r.state = JobState.dead ∨ r.state = JobState.failed) →
      ({ r with
          state := JobState.pending, attempts := 0, updated_at := now1,
          run_at := none } : Job) ∈ (requeue_job now1 job_id db).jobs) := by
  constructor
  · have key : ∀ r ∈ (requeue_job now1 job_id db).jobs,
        (if r.id = job_id && (r.state = JobState.dead || r.state = JobState.failed) then
          ({ r with
              state := JobState.pending, attempts := 0, updated_at := now2,
              run_at := none } : Job)
        else r) = id r := by
      intro r hr
      obtain ⟨x, hx, hxr⟩ := List.mem_map.mp hr
      simp only [id]
      rw [if_neg]
      intro hc
      simp only [Bool.and_eq_true, Bool.or_eq_true, decide_eq_true_eq] at hc
      subst hxr
      by_cases hcx : (x.id = job_id && (x.state = JobState.dead || x.state = JobState.failed)) = true
      · rw [if_pos hcx] at hc
        rcases hc.2 with h | h <;> exact JobState.noConfusion h
      · rw [if_neg hcx] at hc
        exact hcx (by simp only [Bool.and_eq_true, Bool.or_eq_true, decide_eq_true_eq]; exact hc)
    show ({ (requeue_job now1 job_id db) with
            jobs := (requeue_job now1 job_id db).jobs.map _ } : DB) = _
    rw [List.map_congr_left key, List.map_id]
  · intro r hr hid hst
    refine List.mem_map.mpr ⟨r, hr, ?_⟩
    rcases hst with h | h <;> simp [hid, h]

/-- C8 (witness). Requeueing the dead job of `deadDb` at t=4. -/
theorem requeue_job_idempotent_witness :
    ({ deadJob with
        state := JobState.pending, attempts := 0, updated_at := 4,
        run_at := none } : Job) ∈ (requeue_job 4 "d" deadDb).jobs :=
  (requeue_job_idempotent 4 99 "d" deadDb).2 deadJob (by decide) (by decide)
    (Or.inl (by decide))

/-- C1. `fetch_and_lock_job`: a job is returned iff some row is eligible
(`pending`, or `failed`/`scheduled` with `run_at ≤ now`); the returned job is
an eligible row of the table such that no eligible row has higher priority
and no eligible row of equal priority was created earlier; the selected row
is set to `processing` with `updated_at := now` while every other row is
untouched, and when nothing is returned the database is unchanged. -/
theorem fetch_and_lock_job_spec (now : Int) (db : DB) :
    ((fetch_and_lock_job now db).1 = none →
      (fetch_and_lock_job now db).2 = db ∧ ∀ r ∈ db.jobs, eligible now r = false) ∧
    (∀ j, (fetch_and_lock_job now db).1 = some j →
      j ∈ db.jobs ∧ eligible now j = true ∧
      (∀ r ∈ db.jobs, eligible now r = true →
        r.priority ≤ j.priority ∧ (r.priority = j.priority → j.created_at ≤ r.created_at)) ∧
      (fetch_and_lock_job now db).2.jobs = db.jobs.map (fun r =>
        if r.id = j.id then
          ({ r with state := JobState.processing, updated_at := now } : Job) else r) ∧
      (fetch_and_lock_job now db).2.config = db.config) := by
  cases hp : pickJob none (db.jobs.filter (eligible now)) with
  | none =>
    have hempty : db.jobs.filter (eligible now) = [] := (pickJob_eq_none hp).2
    constructor
    · intro _
      constructor
      · have hpair : (fetch_and_lock_job now db) = (none, db) := by
          simp only [fetch_and_lock_job, hp]
        rw [hpair]
      · intro r hr
        cases he : eligible now r with
        | false => rfl
        | true =>
          exfalso
          have : r ∈ db.jobs.filter (eligible now) := List.mem_filter.mpr ⟨hr, he⟩
          rw [hempty] at this
          exact absurd this (List.not_mem_nil r)
    · intro j hj
      exfalso
      have : (fetch_and_lock_job now db).1 = none := by
        simp only [fetch_and_lock_job, hp]
      rw [this] at hj
      exact Option.noConfusion hj
  | some j0 =>
    obtain ⟨hmem0, hbest, _⟩ := pickJob_spec hp
    have hmem0' : j0 ∈ db.jobs.filter (eligible now) := by
      rcases hmem0 with h | h
      · exact h
      · exact Option.noConfusion h
    have hj0mem : j0 ∈ db.jobs := (List.mem_filter.mp hmem0').1
    have hj0el : eligible now j0 = true := (List.mem_filter.mp hmem0').2
    have hfst : (fetch_and_lock_job now db).1 = some j0 := by
      simp only [fetch_and_lock_job, hp]
    constructor
    · intro hnone
      rw [hfst] at hnone
      exact Option.noConfusion hnone
    · intro j hj
      rw [hfst] at hj
      have hjj0 : j0 = j := by injection hj
      subst hjj0
      refine ⟨hj0mem, hj0el, ?_, ?_, ?_⟩
      · intro r hr hel
        have hrf : r ∈ db.jobs.filter (eligible now) := List.mem_filter.mpr ⟨hr, hel⟩
        have hb : betterRow j0 r = false := hbest r hrf
        rw [betterRow_eq_false_iff] at hb
        exact hb
      · show ((fetch_and_lock_job now db).2).jobs = _
        simp only [fetch_and_lock_job, hp]
      · simp only [fetch_and_lock_job, hp]

/-- C1 (witness). On `cDb1` the lease at t=0 returns the pending job and it
is eligible. -/
theorem fetch_and_lock_job_spec_witness :
    jobA0 ∈ cDb1.jobs ∧ eligible 0 jobA0 = true :=
  ⟨((fetch_and_lock_job_spec 0 cDb1).2 jobA0 (by decide)).1,
   ((fetch_and_lock_job_spec 0 cDb1).2 jobA0 (by decide)).2.1⟩

/-- Rows produced by a successful `create_job` are either old rows or the new
row, which is `pending` with null `run_at` or `scheduled` with a non-null
`run_at`. -/
theorem create_job_ok_mem {now localTZ : Int} {job_id command : String}
    {mro : Option Int} {rap : Option (Option ParsedDT)} {priority : Int}
    {timeout : Option Int} {db db' : DB}
    (h : create_job now localTZ job_id command mro rap priority timeout db =
      CreateResult.ok db') :
    ∀ j ∈ db'.jobs, j ∈ db.jobs ∨
      (j.state = JobState.pending ∧ j.run_at = none) ∨
      (j.state = JobState.scheduled ∧ ∃ t : Int, j.run_at = some t) := by
  intro j hj
  simp only [create_job] at h
  split at h
  · exact CreateResult.noConfusion h
  · split at h
    · exact CreateResult.noConfusion h
    · rename_i job_state run_at_dt heq
      split at h
      · exact CreateResult.noConfusion h
      · injection h with hdb
        rw [← hdb] at hj
        simp only [List.mem_append, List.mem_singleton] at hj
        rcases hj with hj | hj
        · exact Or.inl hj
        · split at heq
          · simp only [Option.some.injEq, Prod.mk.injEq] at heq
            subst hj
            exact Or.inr (Or.inl ⟨heq.1.symm, heq.2.symm⟩)
          · exact Option.noConfusion heq
          · split at heq
            · simp only [Option.some.injEq, Prod.mk.injEq] at heq
              subst hj
              refine Or.inr (Or.inr ⟨heq.1.symm, ?_⟩)
              exact ⟨_, heq.2.symm⟩
            · simp only [Option.some.injEq, Prod.mk.injEq] at heq
              subst hj
              exact Or.inr (Or.inl ⟨heq.1.symm, heq.2.symm⟩)

/-- The invariant is stable under a guarded per-row update. -/
theorem runAtInv_ite {c : Prop} [Decidable c] {u x : Job}
    (hu : RunAtInv u) (hx : RunAtInv x) : RunAtInv (if c then u else x) := by
  by_cases hc : c
  · rwa [if_pos hc]
  · rwa [if_neg hc]

/-- Mapping a per-row function that keeps `RunAtInv` keeps it for the table. -/
theorem runAtInv_of_update {l : List Job} {g : Job → Job}
    (hl : ∀ j ∈ l, RunAtInv j) (hg : ∀ x, RunAtInv x → RunAtInv (g x)) :
    ∀ j ∈ l.map g, RunAtInv j := by
  intro j hj
  obtain ⟨x, hx, hxj⟩ := List.mem_map.mp hj
  exact hxj ▸ hg x (hl x hx)

/-- A row whose state is neither `scheduled` nor `failed` satisfies the
invariant vacuously. -/
theorem runAtInv_of_state_pending {x : Job} (hs : x.state = JobState.pending) :
    RunAtInv x := by
  intro hc
  rcases hc with h | h <;> (rw [hs] at h; exact JobState.noConfusion h)

/-- Every Store operation preserves the run_at discipline. -/
theorem step_preserves_runAtInv {a b : DB} (hstep : Step a b)
    (hinv : ∀ j ∈ a.jobs, RunAtInv j) : ∀ j ∈ b.jobs, RunAtInv j := by
  cases hstep with
  | create now localTZ job_id command mro rap priority timeout _ _ h =>
    intro j hj
    rcases create_job_ok_mem h j hj with hm | ⟨hs, _⟩ | ⟨_, t, hr⟩
    · exact hinv j hm
    · exact runAtInv_of_state_pending hs
    · intro _
      rw [hr]
      simp
  | lease now _ =>
    cases hp : pickJob none (a.jobs.filter (eligible now)) with
    | none =>
      have hsame : (fetch_and_lock_job now a).2 = a := by
        simp only [fetch_and_lock_job, hp]
      rw [hsame]
      exact hinv
    | some j0 =>
      have hjobs : (fetch_and_lock_job now a).2.jobs = a.jobs.map (fun r =>
          if r.id = j0.id then
            ({ r with state := JobState.processing, updated_at := now } : Job)
          else r) := by
        simp only [fetch_and_lock_job, hp]
      intro j hj
      rw [hjobs] at hj
      refine runAtInv_of_update hinv (fun x hx => runAtInv_ite ?_ hx) j hj
      intro hc
      rcases hc with hc | hc <;> exact JobState.noConfusion hc
  | finalize now job_id success _ =>
    cases success with
    | true =>
      have hjobs : (finalize_job now job_id true a).jobs = a.jobs.map (fun r =>
          if r.id = job_id then
            ({ r with
                state := JobState.completed, updated_at := now,
                completed_at := some now } : Job)
          else r) := rfl
      intro j hj
      rw [hjobs] at hj
      refine runAtInv_of_update hinv (fun x hx => runAtInv_ite ?_ hx) j hj
      intro hc
      rcases hc with hc | hc <;> exact JobState.noConfusion hc
    | false =>
      cases hfind : a.jobs.find? (fun r => r.id = job_id) with
      | none =>
        have hsame : finalize_job now job_id false a = a := by
          simp only [finalize_job, Bool.false_eq_true, if_false, hfind]
        rw [hsame]
        exact hinv
      | some j0 =>
        by_cases hmax : ((j0.attempts + 1 : Nat) : Int) ≥ j0.max_retries
        · have hjobs : (finalize_job now job_id false a).jobs = a.jobs.map (fun r =>
              if r.id = job_id then
                ({ r with
                    state := JobState.dead, attempts := j0.attempts + 1,
                    updated_at := now } : Job)
              else r) := by
            simp only [finalize_job, Bool.false_eq_true, if_false, hfind]
            rw [if_pos hmax]
          intro j hj
          rw [hjobs] at hj
          refine runAtInv_of_update hinv (fun x hx => runAtInv_ite ?_ hx) j hj
          intro hc
          rcases hc with hc | hc <;> exact JobState.noConfusion hc
        · have hjobs : (finalize_job now job_id false a).jobs = a.jobs.map (fun r =>
              if r.id = job_id then
                ({ r with
                    state := JobState.failed, attempts := j0.attempts + 1,
                    updated_at := now,
                    run_at := some (now + backoff_base_of a.config ^ (j0.attempts + 1)) } : Job)
              else r) := by
            simp only [finalize_job, Bool.false_eq_true, if_false, hfind]
            rw [if_neg hmax]
          intro j hj
          rw [hjobs] at hj
          refine runAtInv_of_update hinv (fun x hx => runAtInv_ite ?_ hx) j hj
          intro _
          simp
  | release now job_id _ =>
    intro j hj
    refine runAtInv_of_update hinv (fun x hx => runAtInv_ite ?_ hx) j hj
    exact runAtInv_of_state_pending rfl
  | requeue now job_id _ =>
    intro j hj
    refine runAtInv_of_update hinv (fun x hx => runAtInv_ite ?_ hx) j hj
    exact runAtInv_of_state_pending rfl
  | retryDlq now job_id _ =>
    intro j hj
    refine runAtInv_of_update hinv (fun x hx => runAtInv_ite ?_ hx) j hj
    exact runAtInv_of_state_pending rfl
  | markStarted now job_id _ =>
    intro j hj
    have hjobs : (mark_job_started now job_id a).jobs =
        a.jobs.map (fun r =>
          if r.id = job_id then ({ r with started_at := some now } : Job) else r) := rfl
    rw [hjobs] at hj
    refine runAtInv_of_update hinv (fun x hx => runAtInv_ite ?_ hx) j hj
    intro hc
    exact hx hc
  | delete job_id _ =>
    intro j hj
    exact hinv j (List.mem_of_mem_filter hj)
  | setConfig key value _ =>
    intro j hj
    exact hinv j hj

/-- C5 (counterexample). The state `cDb4` is reachable from a fresh database
(enqueue at t=0, lease at t=0, fail at t=1, lease again at t=10), and in it
job `"a"` sits in `processing` with `run_at = some 3`, refuting the claim
that every `processing` row has null `run_at`. -/
theorem processing_run_at_nonnull_cex :
    Reachable cDb4 ∧
    (cDb4.jobs.find? (fun r => r.id = "a")).map (fun r => (r.state, r.run_at)) =
      some (JobState.processing, some 3) := by
  constructor
  · have h1 : Step init_db cDb1 :=
      Step.create 0 0 "a" "exit 1" (some 3) none 0 none init_db cDb1 (by decide)
    have h2 : Step cDb1 cDb2 := Step.lease 0 cDb1
    have h3 : Step cDb2 cDb3 := Step.finalize 1 "a" false cDb2
    have h4 : Step cDb3 cDb4 := Step.lease 10 cDb3
    exact Relation.ReflTransGen.head h1 (Relation.ReflTransGen.head h2
      (Relation.ReflTransGen.head h3 (Relation.ReflTransGen.single h4)))
  · decide

/-- C5 (amended). In every reachable database state, every job in state
`scheduled` or `failed` has a non-null `run_at`; the code does not maintain
the claimed null `run_at` for `pending` and `processing` rows, because
`fetch_and_lock_job` and `release_job` never touch `run_at`. -/
theorem reachable_scheduled_failed_have_run_at (db : DB) (h : Reachable db)
    (j : Job) (hj : j ∈ db.jobs)
    (hs : j.state = JobState.scheduled ∨ j.state = JobState.failed) :
    j.run_at ≠ none := by
  have hall : ∀ d : DB, Reachable d → ∀ x ∈ d.jobs, RunAtInv x := by
    intro d hd
    induction hd with
    | refl =>
      intro x hx
      exact absurd hx (List.not_mem_nil x)
    | tail hsteps hstep ih =>
      exact step_preserves_runAtInv hstep ih
  exact hall db h j hj hs

/-- C5 (witness). The scheduled job of the reachable state `sDb` has a
non-null `run_at`. -/
theorem reachable_scheduled_failed_have_run_at_witness :
    sJob.run_at ≠ none :=
  reachable_scheduled_failed_have_run_at sDb
    (Relation.ReflTransGen.single
      (Step.create 0 0 "s" "echo hi" (some 3) (some (some ⟨100, some 0⟩)) 5 none
        init_db sDb (by decide)))
    sJob (by decide) (Or.inl (by decide))

end QueueCTL
